import Mathlib

/-!
Verification of the typos-lsp session layer (`crates/typos-lsp/src/lsp.rs`).

The file embeds the Rust source shallowly:

* bytes are `Nat` values (`< 256` where they come from real buffers);
* Rust `&str` values are Lean `String`s; `str::len` is the UTF-8 byte length;
* `String::from_utf8_lossy` is embedded as `lossy`, following the maximal-subpart
  substitution algorithm of Rust's core library (one U+FFFD per invalid subpart,
  one U+FFFD for an incomplete sequence at the end of the input);
* panicking code paths (assertion failures, out-of-range slice indexing,
  `panic!`, out-of-bounds `Vec` indexing) are represented by `Except`/`Option`
  error results;
* external crates (`typos_cli` config engines, the `ignore` override matcher,
  `matchit` routing internals, `typos::check_str`) enter as function parameters
  or abstract data, since only their interface behaviour is relevant here.
-/

deriving instance DecidableEq for Except

/-- Rust `char::len_utf16`: 1 code unit for scalar values up to `0xFFFF`, else 2. -/
def charLenUtf16 (c : Char) : Nat :=
  if c.toNat ≤ 0xFFFF then 1 else 2

/-- Total UTF-16 code-unit length of a character list
(`before_typo.chars().map(char::len_utf16).sum()`). -/
def utf16Len (cs : List Char) : Nat :=
  (cs.map charLenUtf16).sum

/-- UTF-8 encoding of one scalar value, as byte values. -/
def utf8EncodeChar (c : Char) : List Nat :=
  let n := c.toNat
  if n < 0x80 then [n]
  else if n < 0x800 then [0xC0 + n / 64, 0x80 + n % 64]
  else if n < 0x10000 then [0xE0 + n / 4096, 0x80 + n / 64 % 64, 0x80 + n % 64]
  else [0xF0 + n / 262144, 0x80 + n / 4096 % 64, 0x80 + n / 64 % 64, 0x80 + n % 64]

/-- UTF-8 encoding of a character list (`str::as_bytes`). -/
def utf8Encode (cs : List Char) : List Nat :=
  (cs.map utf8EncodeChar).flatten

/-- Byte view of a Rust `&str` (`buffer.as_bytes()`). -/
def strBytes (s : String) : List Nat :=
  utf8Encode s.data

/-- Rust `str::len`: the UTF-8 byte length of a string. -/
def strByteLen (s : String) : Nat :=
  (s.data.map Char.utf8Size).sum

/-- The replacement character U+FFFD emitted by lossy UTF-8 decoding. -/
def replChar : Char := Char.ofNat 0xFFFD

/-- Is `b` a UTF-8 continuation byte (`b & 0xC0 == 0x80`)? -/
def isCont (b : Nat) : Bool :=
  0x80 ≤ b && b < 0xC0

/-- Valid second bytes of a three-byte sequence, as in Rust's UTF-8 validation:
`(0xE0, 0xA0..=0xBF) | (0xE1..=0xEC, 0x80..=0xBF) | (0xED, 0x80..=0x9F) |
(0xEE..=0xEF, 0x80..=0xBF)`. -/
def valid3 (b b2 : Nat) : Bool :=
  (b == 0xE0 && 0xA0 ≤ b2 && b2 ≤ 0xBF) ||
  (0xE1 ≤ b && b ≤ 0xEC && isCont b2) ||
  (b == 0xED && 0x80 ≤ b2 && b2 ≤ 0x9F) ||
  (0xEE ≤ b && b ≤ 0xEF && isCont b2)

/-- Valid second bytes of a four-byte sequence, as in Rust's UTF-8 validation:
`(0xF0, 0x90..=0xBF) | (0xF1..=0xF3, 0x80..=0xBF) | (0xF4, 0x80..=0x8F)`. -/
def valid4 (b b2 : Nat) : Bool :=
  (b == 0xF0 && 0x90 ≤ b2 && b2 ≤ 0xBF) ||
  (0xF1 ≤ b && b ≤ 0xF3 && isCont b2) ||
  (b == 0xF4 && 0x80 ≤ b2 && b2 ≤ 0x8F)

/-- Fuel-indexed body of the lossy UTF-8 decoder. Each step consumes at least
one byte, so any fuel at least the list length gives the same result; the fuel
only makes the recursion structural. Branch structure follows
`core::str::validations`: leading-byte classes `0x00..=0x7F` (ASCII),
`0x80..=0xC1` (invalid start), `0xC2..=0xDF` (2 bytes), `0xE0..=0xEF` (3 bytes),
`0xF0..=0xF4` (4 bytes), `0xF5..=0xFF` (invalid start). An invalid subpart is
replaced by one U+FFFD and decoding resumes at the byte after the subpart; an
incomplete sequence at the end of the input becomes a single U+FFFD. -/
def lossyF : Nat → List Nat → List Char
  | 0, _ => []
  | _ + 1, [] => []
  | fuel + 1, b :: rest =>
    if b ≤ 0x7F then Char.ofNat b :: lossyF fuel rest
    else if b < 0xC2 then replChar :: lossyF fuel rest
    else if b ≤ 0xDF then
      match rest with
      | [] => [replChar]
      | b2 :: rest2 =>
        if isCont b2 then
          Char.ofNat ((b - 0xC0) * 64 + (b2 - 0x80)) :: lossyF fuel rest2
        else replChar :: lossyF fuel rest
    else if b ≤ 0xEF then
      match rest with
      | [] => [replChar]
      | b2 :: rest2 =>
        if valid3 b b2 then
          match rest2 with
          | [] => [replChar]
          | b3 :: rest3 =>
            if isCont b3 then
              Char.ofNat ((b - 0xE0) * 4096 + (b2 - 0x80) * 64 + (b3 - 0x80)) :: lossyF fuel rest3
            else replChar :: lossyF fuel rest2
        else replChar :: lossyF fuel rest
    else if b ≤ 0xF4 then
      match rest with
      | [] => [replChar]
      | b2 :: rest2 =>
        if valid4 b b2 then
          match rest2 with
          | [] => [replChar]
          | b3 :: rest3 =>
            if isCont b3 then
              match rest3 with
              | [] => [replChar]
              | b4 :: rest4 =>
                if isCont b4 then
                  Char.ofNat ((b - 0xF0) * 262144 + (b2 - 0x80) * 4096 +
                    (b3 - 0x80) * 64 + (b4 - 0x80)) :: lossyF fuel rest4
                else replChar :: lossyF fuel rest3
            else replChar :: lossyF fuel rest2
        else replChar :: lossyF fuel rest
    else replChar :: lossyF fuel rest

/-- Rust `String::from_utf8_lossy`, decoding bytes to characters with maximal
invalid subparts replaced by U+FFFD. -/
def lossy (l : List Nat) : List Char :=
  lossyF l.length l

/-- Index of the last newline byte in a list, if any
(`ByteSlice::rfind_byte(b'\n')` restricted to byte `10`). -/
def rfindNl : List Nat → Option Nat
  | [] => none
  | b :: rest =>
    match rfindNl rest with
    | some i => some (i + 1)
    | none => if b = 10 then some 0 else none

/-- Start of the line containing byte offset `off`: one past the last newline
strictly before `off`, or `0`
(`buffer[0..byte_offset].rfind_byte(b'\n').map(|s| s + 1).unwrap_or(0)`). -/
def lineStart (buffer : List Nat) (off : Nat) : Nat :=
  match rfindNl (buffer.take off) with
  | some s => s + 1
  | none => 0

/-- Specification-side line start, written independently of the code's
`rfind` on a slice: scanning backwards from the offset, the start of the
current line is the byte after the most recent newline strictly before the
offset, or `0` when no newline precedes it. -/
def lineStartSpec (buffer : List Nat) : Nat → Nat
  | 0 => 0
  | off + 1 => if buffer[off]? == some 10 then off + 1 else lineStartSpec buffer off

/-- Panics of `AccumulatePosition::pos`: the explicit
`assert!(self.last_offset <= byte_offset)` and the implicit slice-bounds panic
of `&buffer[..byte_offset]` when `byte_offset` exceeds the buffer length. -/
inductive PosError where
  | assertFailed
  | sliceOutOfRange
deriving DecidableEq

/-- The forward-only position cursor of `lsp.rs` (`struct AccumulatePosition`). -/
structure AccumulatePosition where
  line_num : Nat
  line_pos : Nat
  last_offset : Nat
deriving DecidableEq

/-- Constructor `AccumulatePosition::new()`: zero-indexed LSP coordinates start at `(0, 0)`. -/
def AccumulatePosition.new : AccumulatePosition :=
  ⟨0, 0, 0⟩

/-- Method `AccumulatePosition::pos(buffer, byte_offset)`: count newlines between the
previous and the current offset for the line number, then recompute the column
as the UTF-16 length of the lossily decoded bytes from the current line start to
the offset. Errors model the assertion failure (offset moved backwards) and the
slice-bounds panic (offset past the end of the buffer). -/
def AccumulatePosition.pos (self : AccumulatePosition) (buffer : List Nat)
    (byte_offset : Nat) : Except PosError ((Nat × Nat) × AccumulatePosition) :=
  if byte_offset < self.last_offset then .error .assertFailed
  else if buffer.length < byte_offset then .error .sliceOutOfRange
  else
    let slice := (buffer.take byte_offset).drop self.last_offset
    let line_num := self.line_num + slice.count 10
    let line_pos := utf16Len (lossy ((buffer.take byte_offset).drop (lineStart buffer byte_offset)))
    .ok ((line_num, line_pos), ⟨line_num, line_pos, byte_offset⟩)

/-- Feed a sequence of byte offsets through one cursor, collecting the returned
(line, column) pairs; any panic aborts the whole run. -/
def runPos (buffer : List Nat) : AccumulatePosition → List Nat →
    Except PosError (List (Nat × Nat))
  | _, [] => .ok []
  | st, off :: offs =>
    match st.pos buffer off with
    | .error e => .error e
    | .ok (p, st') => (runPos buffer st' offs).map (p :: ·)

/-- Non-decreasing check for a list of byte offsets. -/
def offsetsMonotone : List Nat → Bool
  | [] => true
  | [_] => true
  | a :: b :: t => decide (a ≤ b) && offsetsMonotone (b :: t)

/-- Lexicographic order on (line, column) pairs. -/
def lexLe (p q : Nat × Nat) : Prop :=
  p.1 < q.1 ∨ (p.1 = q.1 ∧ p.2 ≤ q.2)

instance (p q : Nat × Nat) : Decidable (lexLe p q) := by
  unfold lexLe; infer_instance

/-- Adjacent pairs of the list are lexicographically non-decreasing. -/
def lexChain : List (Nat × Nat) → Prop
  | [] => True
  | [_] => True
  | p :: q :: t => lexLe p q ∧ lexChain (q :: t)

/-! ## Findings and diagnostics (`Backend::check_text`) -/

/-- Status `typos::Status` attached to one finding of the external engine. -/
inductive Status where
  | Invalid
  | Corrections (corrections : List String)
  | Valid
deriving DecidableEq

/-- One finding of `typos::check_str`: byte offset, matched text, status. -/
structure Finding where
  byte_offset : Nat
  typo : String
  corrections : Status
deriving DecidableEq

/-- The opaque `data` payload attached to a diagnostic: either a decodable
`DiagnosticData { corrections }` value or a JSON value that does not
deserialize to it (`serde_json::from_value` fails). -/
inductive DiagData where
  | corrections (corrections : List String)
  | malformed
deriving DecidableEq

/-- Diagnostic severity constants of the protocol. -/
inductive Severity where
  | error
  | warning
  | information
  | hint
deriving DecidableEq

/-- An LSP range: zero-indexed (line, UTF-16 column) start and end. -/
structure Range where
  start : Nat × Nat
  stop : Nat × Nat
deriving DecidableEq

/-- The protocol diagnostic record built per finding in `check_text`. -/
structure Diagnostic where
  range : Range
  severity : Option Severity
  source : Option String
  message : String
  data : Option DiagData
deriving DecidableEq

/-- Loop body of `check_text`: translate each finding into a diagnostic,
threading the shared position cursor. `none` models a panic: a failed cursor
assertion or slice, or the `panic!("unexpected typos::Status::Valid")` arm of
the message formatter. The end column is `line_pos + typo.typo.len()`
(UTF-8 byte length added to the start column, same line). -/
def processFindings (severity : Option Severity) (bytes : List Nat) :
    AccumulatePosition → List Finding → Option (List Diagnostic)
  | _, [] => some []
  | accum, typo :: fs =>
    match accum.pos bytes typo.byte_offset with
    | .error _ => none
    | .ok ((line_num, line_pos), accum') =>
      match typo.corrections with
      | .Valid => none
      | .Invalid =>
        (processFindings severity bytes accum' fs).map
          ({ range := ⟨(line_num, line_pos), (line_num, line_pos + strByteLen typo.typo)⟩,
             severity := severity,
             source := some "typos",
             message := "`" ++ typo.typo ++ "` is disallowed",
             data := none } :: ·)
      | .Corrections corrections =>
        (processFindings severity bytes accum' fs).map
          ({ range := ⟨(line_num, line_pos), (line_num, line_pos + strByteLen typo.typo)⟩,
             severity := severity,
             source := some "typos",
             message := "`" ++ typo.typo ++ "` should be " ++
               String.intercalate ", " (corrections.map (fun s => "`" ++ s ++ "`")),
             data := some (.corrections corrections) } :: ·)

/-- The route value resolved for a document: the compiled `extend-exclude`
override matcher of the folder's `TyposCli`, with
`excludes path = overrides.matched(path, false).is_ignore()`. The engine's
tokenizer/dictionary pair is abstracted away because `check_text` is
parameterised over the finding sequence those produce. -/
structure RouteTarget where
  excludes : String → Bool

/-- Method `Backend::check_text`: resolve the route for the document (`routed = none`
models a failed router lookup, which falls back to the default policy with no
override matcher), short-circuit to an empty diagnostic list when the resolved
override matcher ignores the path, otherwise run the engine (`engineCheck`,
modelling `typos::check_str` with the resolved tokenizer and dictionary) and
translate every finding. -/
def check_text (routed : Option RouteTarget) (severity : Option Severity)
    (engineCheck : String → List Finding) (path : String) (buffer : String) :
    Option (List Diagnostic) :=
  match routed with
  | some target =>
    if target.excludes path then some []
    else processFindings severity (strBytes buffer) AccumulatePosition.new (engineCheck buffer)
  | none =>
    processFindings severity (strBytes buffer) AccumulatePosition.new (engineCheck buffer)

/-! ## Code actions (`Backend::code_action`) -/

/-- A single protocol text edit. -/
structure TextEdit where
  range : Range
  newText : String
deriving DecidableEq

/-- A workspace edit: per-URI lists of text edits (`WorkspaceEdit { changes }`). -/
structure WorkspaceEdit where
  changes : List (String × List TextEdit)
deriving DecidableEq

/-- A quick-fix code action as built in `code_action`. -/
structure CodeAction where
  title : String
  kind : Option String
  diagnostics : List Diagnostic
  edit : Option WorkspaceEdit
  isPreferred : Option Bool
deriving DecidableEq

/-- The action built for one correction candidate `c` of a diagnostic whose
payload holds `n` candidates: a quick-fix titled `c`, whose edit is a single
replacement of exactly the diagnostic's stored range with `c`, preferred
exactly when `n = 1` (`corrections.len() == 1`). -/
def mkCodeAction (uri : String) (diag : Diagnostic) (n : Nat) (c : String) : CodeAction :=
  { title := c,
    kind := some "quickfix",
    diagnostics := [diag],
    edit := some { changes := [(uri, [{ range := diag.range, newText := c }])] },
    isPreferred := if n = 1 then some true else none }

/-- Actions contributed by one diagnostic: one action per decoded correction
candidate, in order. A missing (`none`) payload (client without diagnostic-data
support) or an undecodable (`malformed`) one contributes nothing. -/
def diagActions (uri : String) (diag : Diagnostic) : List CodeAction :=
  match diag.data with
  | some (.corrections corrections) =>
    corrections.map (mkCodeAction uri diag corrections.length)
  | some .malformed => []
  | none => []

/-- Handler `Backend::code_action`: keep only diagnostics with source `"typos"`, then
flat-map each one's contributed actions. -/
def code_action (uri : String) (diagnostics : List Diagnostic) : List CodeAction :=
  ((diagnostics.filter (fun d => d.source == some "typos")).map (diagActions uri)).flatten

/-- The full request handler result: the handler always answers
`Ok(Some(actions))`. -/
def code_action_handler (uri : String) (diagnostics : List Diagnostic) :
    Except String (Option (List CodeAction)) :=
  .ok (some (code_action uri diagnostics))

/-! ## Router rebuild (`BackendState`) -/

/-- One workspace folder (URI kept as its path string, the form in which
`update_router` consumes it). -/
structure WorkspaceFolder where
  uri : String
  name : String
deriving DecidableEq, BEq

/-- An engine/override bundle built by `try_new_cli`; its contents come from the
external `typos_cli` crate, so only its identity matters here. -/
structure TyposCli where
  cliId : Nat
deriving DecidableEq

/-- The routing table: insertion-ordered `(route pattern, TyposCli)` entries. -/
abbrev RouterTable := List (String × TyposCli)

/-- The lock-guarded server state (`struct BackendState`). -/
structure BackendState where
  severity : Option Severity
  config : Option String
  workspace_folders : List WorkspaceFolder
  router : RouterTable
deriving DecidableEq

/-- Function `url_path_sanitised`: replace every `:` with `%3A` so the routing syntax
does not read it as a parameter marker. -/
def url_path_sanitised (uri : String) : String :=
  ⟨(uri.data.map (fun c => if c = ':' then ['%', '3', 'A'] else [c])).flatten⟩

/-- Model of `matchit::Router::insert`: fails on a conflicting (here: duplicate) route,
leaving the table unchanged; otherwise appends the entry. -/
def router_insert (router : RouterTable) (route : String) (cli : TyposCli) :
    Option RouterTable :=
  if (router.map Prod.fst).contains route then none
  else some (router ++ [(route, cli)])

/-- Method `RouterExt::insert_new_typos_cli`: build a `TyposCli` for `path` and insert
it under `route`. `tryNewCli` abstracts `try_new_cli` (config loading and
override compilation in external crates), returning `none` on failure. -/
def insert_new_typos_cli (tryNewCli : String → Option String → Option TyposCli)
    (router : RouterTable) (route : String) (path : String) (config : Option String) :
    Option RouterTable :=
  (tryNewCli path config).bind (router_insert router route)

/-- One iteration of the `update_router` folder loop: convert the folder URI to
a file path (`toFilePath` abstracts `Url::to_file_path`, fallible), then insert
a freshly built `TyposCli` under the route `sanitised-path ++ "/*p"`. -/
def folder_step (toFilePath : String → Option String)
    (tryNewCli : String → Option String → Option TyposCli) (config : Option String)
    (router : RouterTable) (folder : WorkspaceFolder) : Option RouterTable :=
  (toFilePath folder.uri).bind fun path =>
    insert_new_typos_cli tryNewCli router (url_path_sanitised folder.uri ++ "/*p") path config

/-- The `update_router` folder loop: starting from the freshly cleared table,
insert one route per folder; the first failure aborts the loop, *returning the
partially filled table* (the `?` operator propagates the error while
`self.router` keeps the routes inserted so far). -/
def update_router_go (toFilePath : String → Option String)
    (tryNewCli : String → Option String → Option TyposCli) (config : Option String) :
    RouterTable → List WorkspaceFolder → RouterTable × Bool
  | router, [] => (router, true)
  | router, f :: fs =>
    match folder_step toFilePath tryNewCli config router f with
    | none => (router, false)
    | some router' => update_router_go toFilePath tryNewCli config router' fs

/-- The low-priority catch-all route (non-Windows branch): route `"/*p"` for
path `"/"`. -/
def insert_catch_all (tryNewCli : String → Option String → Option TyposCli)
    (config : Option String) (router : RouterTable) : Option RouterTable :=
  insert_new_typos_cli tryNewCli router "/*p" "/" config

/-- Method `BackendState::update_router`: replace the router with a new empty table,
re-insert a route per current workspace folder, then the catch-all; the `Bool`
component is `true` on success (`Ok(())`). On any failure the state keeps the
partially rebuilt table. -/
def update_router (toFilePath : String → Option String)
    (tryNewCli : String → Option String → Option TyposCli) (s : BackendState) :
    BackendState × Bool :=
  match update_router_go toFilePath tryNewCli s.config [] s.workspace_folders with
  | (r, false) => ({ s with router := r }, false)
  | (r, true) =>
    match insert_catch_all tryNewCli s.config r with
    | none => ({ s with router := r }, false)
    | some r' => ({ s with router := r' }, true)

/-- Method `BackendState::set_workspace_folders`: replace the folder list and rebuild. -/
def set_workspace_folders (toFilePath : String → Option String)
    (tryNewCli : String → Option String → Option TyposCli)
    (workspace_folders : List WorkspaceFolder) (s : BackendState) :
    BackendState × Bool :=
  update_router toFilePath tryNewCli { s with workspace_folders := workspace_folders }

/-- Method `BackendState::update_workspace_folders`: extend the folder list with
`added`, drop members of `removed` (only when `removed` is non-empty, as in the
source), and rebuild. -/
def update_workspace_folders (toFilePath : String → Option String)
    (tryNewCli : String → Option String → Option TyposCli)
    (added removed : List WorkspaceFolder) (s : BackendState) :
    BackendState × Bool :=
  let wf := s.workspace_folders ++ added
  let wf := if removed.isEmpty then wf else wf.filter (fun x => !(removed.contains x))
  update_router toFilePath tryNewCli { s with workspace_folders := wf }

/-! ## Change notifications (`Backend::did_change`) -/

/-- One entry of `DidChangeTextDocumentParams::content_changes` (full sync:
only the replacement text matters). -/
structure TextDocumentContentChangeEvent where
  text : String
deriving DecidableEq

/-- The parameters of a change notification. -/
structure DidChangeParams where
  uri : String
  version : Int
  content_changes : List TextDocumentContentChangeEvent
deriving DecidableEq

/-- The document item passed on to `report_diagnostics`. -/
structure TextDocumentItem where
  uri : String
  language_id : String
  text : String
  version : Int
deriving DecidableEq

/-- Handler `Backend::did_change`: forwards `content_changes[0].text` as the complete
new document text; indexing `[0]` panics (`none`) on an empty list, and entries
past the first are never read. -/
def did_change (params : DidChangeParams) : Option TextDocumentItem :=
  match params.content_changes with
  | [] => none
  | c :: _ =>
    some { uri := params.uri, language_id := "FOOBAR", text := c.text,
           version := params.version }

/-! ## Concrete instances used by individual witnesses and counterexamples -/

/-- The UTF-16 demonstration buffer of the specification. -/
def demoBuffer : String := "héllo 😀 wrold"

/-- Its byte view; the word `"wrold"` starts at byte offset 12. -/
def demoBytes : List Nat := strBytes demoBuffer

/-- The diagnostic produced for matched text `"helo"` at byte offset 0 with
corrections `["hello"]`. -/
def dHelo : Diagnostic :=
  { range := ⟨(0, 0), (0, 4)⟩, severity := none, source := some "typos",
    message := "`helo` should be `hello`", data := some (.corrections ["hello"]) }

/-- A foreign diagnostic (different source, no payload) present in the same
code-action request. -/
def dBad : Diagnostic :=
  { range := ⟨(0, 0), (0, 1)⟩, severity := none, source := some "rustc",
    message := "unrelated", data := none }

/-- A diagnostic with source `"typos"` whose payload does not deserialize. -/
def dMalformed : Diagnostic :=
  { range := ⟨(2, 0), (2, 3)⟩, severity := none, source := some "typos",
    message := "`abc` should be `abcd`", data := some .malformed }

/-- An engine producing one finding whose matched text contains a non-ASCII
character: `"fée"` is 4 UTF-8 bytes but 3 UTF-16 code units. -/
def feeEngine : String → List Finding :=
  fun _ => [⟨0, "fée", .Corrections ["fee"]⟩]

/-- A route target whose override matcher ignores exactly one path. -/
def demoTarget : RouteTarget :=
  ⟨fun p => p == "/w/skip.txt"⟩

/-- The diagnostic produced for an Invalid-status finding on `"xx"`. -/
def dInvDemo : Diagnostic :=
  { range := ⟨(0, 0), (0, 2)⟩, severity := none, source := some "typos",
    message := "`xx` is disallowed", data := none }

/-- URI-to-path conversion that always succeeds, for the router scenarios. -/
def cexToFilePath : String → Option String := fun u => some u

/-- A `try_new_cli` oracle that fails exactly for the folder path `"/b"`. -/
def cexTryNewCli : String → Option String → Option TyposCli :=
  fun p _ => if p = "/b" then none else some ⟨1⟩

/-- A server state holding the previously installed router (folder `/old` plus
the catch-all). -/
def cexState : BackendState :=
  { severity := none, config := none, workspace_folders := [⟨"/old", "old"⟩],
    router := [("/old/*p", ⟨0⟩), ("/*p", ⟨9⟩)] }

/-- The folder list after the counterexample's workspace-folder change. -/
def cexFolders : List WorkspaceFolder := [⟨"/a", "a"⟩, ⟨"/b", "b"⟩]

/-- The state the failing rebuild starts from, carrying the new folder list and
the previously installed router. -/
def cexState2 : BackendState :=
  { severity := none, config := none, workspace_folders := cexFolders,
    router := [("/old/*p", ⟨0⟩), ("/*p", ⟨9⟩)] }

/-- The state the failing rebuild leaves behind: the previous router is gone
and only the routes inserted before the failure remain. -/
def cexResult : BackendState :=
  { severity := none, config := none, workspace_folders := cexFolders,
    router := [("/a/*p", ⟨1⟩)] }

/-- A `try_new_cli` oracle failing exactly at the catch-all path `"/"`. -/
def cexTryNewCli2 : String → Option String → Option TyposCli :=
  fun p _ => if p = "/" then none else some ⟨2⟩

/-! ## Helper lemmas -/

theorem code_action_append (uri : String) (ds1 ds2 : List Diagnostic) :
    code_action uri (ds1 ++ ds2) = code_action uri ds1 ++ code_action uri ds2 := by
  simp [code_action, List.filter_append]

theorem code_action_cons (uri : String) (d : Diagnostic) (ds : List Diagnostic) :
    code_action uri (d :: ds) =
      (if d.source == some "typos" then diagActions uri d else []) ++ code_action uri ds := by
  by_cases h : d.source == some "typos" <;> simp [code_action, List.filter_cons, h]

theorem code_action_singleton (uri : String) (d : Diagnostic)
    (h : d.source = some "typos") : code_action uri [d] = diagActions uri d := by
  simp [code_action_cons, code_action, h]

/-! ## Claim theorems -/

/-- C6: for every document whose resolved path matches the resolved policy's
exclusion filter, `check_text` returns the empty diagnostic set without
invoking the analysis engine (the result is `some []` for every engine and
every buffer content). -/
theorem C6_exclusion_short_circuit (target : RouteTarget) (severity : Option Severity)
    (engineCheck : String → List Finding) (path buffer : String)
    (h : target.excludes path = true) :
    check_text (some target) severity engineCheck path buffer = some [] := by
  simp [check_text, h]

theorem C6_witness :
    demoTarget.excludes "/w/skip.txt" = true ∧
    check_text (some demoTarget) none (fun _ => [⟨0, "helo", .Invalid⟩])
      "/w/skip.txt" "helo helo" = some [] :=
  ⟨by decide, C6_exclusion_short_circuit demoTarget none _ _ _ (by decide)⟩

/-- C10: the change-notification handler reads only the first element of the
content-changes list: an empty list panics (`none`), and with at least one
entry the forwarded document text is the first entry's text, whatever follows. -/
theorem C10_first_change_only (params : DidChangeParams) :
    (params.content_changes = [] → did_change params = none) ∧
    ∀ c rest, params.content_changes = c :: rest →
      did_change params = some { uri := params.uri, language_id := "FOOBAR",
                                 text := c.text, version := params.version } := by
  constructor
  · intro h
    simp [did_change, h]
  · intro c rest h
    simp [did_change, h]

theorem C10_witness :
    did_change ⟨"file", 3, []⟩ = none ∧
    did_change ⟨"file", 3, [⟨"new text"⟩, ⟨"ignored"⟩]⟩ =
      some ⟨"file", "FOOBAR", "new text", 3⟩ :=
  ⟨(C10_first_change_only _).1 rfl,
   (C10_first_change_only _).2 ⟨"new text"⟩ [⟨"ignored"⟩] rfl⟩

/-- C7: an in-scope diagnostic with a decodable payload of `n` candidates
yields exactly `n` actions, one per candidate in order, each a single
replacement of exactly the stored range with that candidate, and an action is
preferred exactly when the payload holds one candidate. -/
theorem C7_one_action_per_candidate (uri : String) (d : Diagnostic) (cs : List String)
    (hsrc : d.source = some "typos") (hdata : d.data = some (.corrections cs)) :
    (code_action uri [d]).length = cs.length ∧
    (∀ (i : Nat) (c : String), cs[i]? = some c →
      (code_action uri [d])[i]? = some (mkCodeAction uri d cs.length c)) ∧
    (∀ a ∈ code_action uri [d], (a.isPreferred = some true ↔ cs.length = 1)) := by
  have hca : code_action uri [d] = cs.map (mkCodeAction uri d cs.length) := by
    rw [code_action_singleton uri d hsrc]
    simp [diagActions, hdata]
  refine ⟨by simp [hca], ?_, ?_⟩
  · intro i c hic
    simp [hca, List.getElem?_map, hic]
  · intro a ha
    rw [hca] at ha
    obtain ⟨c, _, rfl⟩ := List.mem_map.mp ha
    simp only [mkCodeAction]
    split_ifs with h1 <;> simp [h1]

theorem C7_witness :
    dHelo.source = some "typos" ∧ dHelo.data = some (.corrections ["hello"]) ∧
    (code_action "file:///a.txt" [dHelo]).length = 1 ∧
    (code_action "file:///a.txt" [dHelo])[0]? =
      some (mkCodeAction "file:///a.txt" dHelo 1 "hello") :=
  ⟨rfl, rfl, (C7_one_action_per_candidate _ dHelo ["hello"] rfl rfl).1,
   (C7_one_action_per_candidate _ dHelo ["hello"] rfl rfl).2.1 0 "hello" rfl⟩

/-- C8: only diagnostics with source `"typos"` contribute actions; a diagnostic
whose payload is absent or cannot be decoded contributes no actions while the
others in the same request are unaffected, and the handler still answers
`Ok(Some(...))`. -/
theorem C8_robust_filtering (uri : String) (ds1 ds2 : List Diagnostic) (d : Diagnostic)
    (h : d.source ≠ some "typos" ∨ d.data = none ∨ d.data = some .malformed) :
    code_action_handler uri (ds1 ++ d :: ds2) = .ok (some (code_action uri (ds1 ++ ds2))) := by
  have hmid : code_action uri (ds1 ++ d :: ds2) = code_action uri (ds1 ++ ds2) := by
    rw [code_action_append, code_action_append, code_action_cons]
    rcases h with h | h | h
    · simp [h]
    · simp [diagActions, h]
    · simp [diagActions, h]
  simp [code_action_handler, hmid]

theorem C8_witness :
    (dBad.source ≠ some "typos" ∨ dBad.data = none ∨ dBad.data = some .malformed) ∧
    (dMalformed.source ≠ some "typos" ∨ dMalformed.data = none ∨
      dMalformed.data = some .malformed) ∧
    code_action_handler "u" [dHelo, dBad] = .ok (some (code_action "u" [dHelo])) ∧
    code_action_handler "u" [dMalformed, dHelo] = .ok (some (code_action "u" [dHelo])) :=
  ⟨Or.inl (by decide), Or.inr (Or.inr rfl),
   C8_robust_filtering "u" [dHelo] [] dBad (Or.inl (by decide)),
   C8_robust_filtering "u" [] [dHelo] dMalformed (Or.inr (Or.inr rfl))⟩

/-- C2: the end coordinate emitted by `check_text` is *not* the result of
advancing the cursor to `offset + matched length`: the code adds the UTF-8
byte length of the matched text (`typo.typo.len()`) to the start column. For
matched text `"fée"` at offset 0 the emitted end column is 4, while advancing
the same cursor to `0 + strByteLen "fée" = 4` yields the UTF-16 column 3 the
claim (and the advertised UTF-16 position encoding) demand. -/
theorem C2_end_column_is_byte_length :
    check_text none none feeEngine "/p" "fée" =
      some [{ range := ⟨(0, 0), (0, 4)⟩, severity := none, source := some "typos",
              message := "`fée` should be `fee`", data := some (.corrections ["fee"]) }] ∧
    strByteLen "fée" = 4 ∧
    utf16Len "fée".data = 3 ∧
    AccumulatePosition.pos ⟨0, 0, 0⟩ (strBytes "fée") (0 + strByteLen "fée") =
      .ok ((0, 3), ⟨0, 3, 4⟩) ∧
    (4 : Nat) ≠ 3 :=
  ⟨by decide, by decide, by decide, by decide, by decide⟩

theorem processFindings_invalid_entry :
    ∀ (fs : List Finding) (severity : Option Severity) (bytes : List Nat)
      (accum : AccumulatePosition) (ds : List Diagnostic),
      processFindings severity bytes accum fs = some ds →
      ∀ (i : Nat) (f : Finding), fs[i]? = some f → f.corrections = .Invalid →
        ds[i]?.map Diagnostic.message = some ("`" ++ f.typo ++ "` is disallowed") ∧
        ds[i]?.map Diagnostic.data = some none ∧
        ∀ uri, ds[i]?.map (diagActions uri) = some [] := by
  intro fs
  induction fs with
  | nil =>
    intro severity bytes accum ds h i f hif
    simp at hif
  | cons f0 fs ih =>
    intro severity bytes accum ds h i f hif hinv
    simp only [processFindings] at h
    rcases hpos : accum.pos bytes f0.byte_offset with e | v
    · rw [hpos] at h
      simp at h
    · rw [hpos] at h
      obtain ⟨⟨line_num, line_pos⟩, accum'⟩ := v
      cases hcor : f0.corrections with
      | Valid =>
        rw [hcor] at h
        simp at h
      | Invalid =>
        rw [hcor] at h
        obtain ⟨ds', hds', hcons⟩ := Option.map_eq_some'.mp h
        subst hcons
        cases i with
        | zero =>
          simp only [List.getElem?_cons_zero, Option.some.injEq] at hif
          subst hif
          refine ⟨by simp, by simp, ?_⟩
          intro uri
          simp [diagActions]
        | succ i =>
          simp only [List.getElem?_cons_succ] at hif ⊢
          exact ih severity bytes accum' ds' hds' i f hif hinv
      | Corrections cs =>
        rw [hcor] at h
        obtain ⟨ds', hds', hcons⟩ := Option.map_eq_some'.mp h
        subst hcons
        cases i with
        | zero =>
          simp only [List.getElem?_cons_zero, Option.some.injEq] at hif
          subst hif
          rw [hcor] at hinv
          simp at hinv
        | succ i =>
          simp only [List.getElem?_cons_succ] at hif ⊢
          exact ih severity bytes accum' ds' hds' i f hif hinv

theorem processFindings_valid_aborts :
    ∀ (fs : List Finding) (severity : Option Severity) (bytes : List Nat)
      (accum : AccumulatePosition), (∃ f ∈ fs, f.corrections = .Valid) →
      processFindings severity bytes accum fs = none := by
  intro fs
  induction fs with
  | nil =>
    intro severity bytes accum hex
    simp at hex
  | cons f0 fs ih =>
    intro severity bytes accum hex
    obtain ⟨f, hmem, hval⟩ := hex
    simp only [processFindings]
    rcases hpos : accum.pos bytes f0.byte_offset with e | v
    · rfl
    · obtain ⟨⟨line_num, line_pos⟩, accum'⟩ := v
      cases hcor : f0.corrections with
      | Valid => rfl
      | Invalid =>
        have hf : f ∈ fs := by
          rcases List.mem_cons.mp hmem with rfl | h'
          · rw [hcor] at hval
            exact absurd hval (by simp)
          · exact h'
        dsimp only
        rw [ih severity bytes accum' ⟨f, hf, hval⟩]
        rfl
      | Corrections cs =>
        have hf : f ∈ fs := by
          rcases List.mem_cons.mp hmem with rfl | h'
          · rw [hcor] at hval
            exact absurd hval (by simp)
          · exact h'
        dsimp only
        rw [ih severity bytes accum' ⟨f, hf, hval⟩]
        rfl

/-- C9: a Finding with Invalid status yields a diagnostic whose message is
exactly `` `<text>` is disallowed `` and which carries no payload — hence it
contributes no code actions — and a Finding carrying the excluded Valid status
reaching the message formatter aborts the whole check (`panic!`, modelled as
`none`) instead of being silently swallowed. -/
theorem C9_invalid_and_valid_status :
    (∀ (severity : Option Severity) (bytes : List Nat) (accum : AccumulatePosition)
       (fs : List Finding) (ds : List Diagnostic) (i : Nat) (f : Finding),
       processFindings severity bytes accum fs = some ds →
       fs[i]? = some f → f.corrections = .Invalid →
       ds[i]?.map Diagnostic.message = some ("`" ++ f.typo ++ "` is disallowed") ∧
       ds[i]?.map Diagnostic.data = some none ∧
       ∀ uri, ds[i]?.map (diagActions uri) = some []) ∧
    (∀ (severity : Option Severity) (bytes : List Nat) (accum : AccumulatePosition)
       (fs : List Finding) (f : Finding), f ∈ fs → f.corrections = .Valid →
       processFindings severity bytes accum fs = none) :=
  ⟨fun severity bytes accum fs ds i f h hif hinv =>
    processFindings_invalid_entry fs severity bytes accum ds h i f hif hinv,
   fun severity bytes accum fs f hmem hval =>
    processFindings_valid_aborts fs severity bytes accum ⟨f, hmem, hval⟩⟩

theorem C9_witness :
    processFindings none [] AccumulatePosition.new [⟨0, "xx", .Invalid⟩] = some [dInvDemo] ∧
    [dInvDemo][0]?.map Diagnostic.message = some ("`" ++ "xx" ++ "` is disallowed") ∧
    [dInvDemo][0]?.map Diagnostic.data = some none ∧
    [dInvDemo][0]?.map (diagActions "u") = some [] ∧
    processFindings none [] AccumulatePosition.new [⟨0, "xx", .Valid⟩] = none := by
  have h1 := C9_invalid_and_valid_status.1 none [] AccumulatePosition.new
    [⟨0, "xx", .Invalid⟩] [dInvDemo] 0 ⟨0, "xx", .Invalid⟩ (by decide) rfl rfl
  exact ⟨by decide, h1.1, h1.2.1, h1.2.2 "u",
    C9_invalid_and_valid_status.2 none [] AccumulatePosition.new
      [⟨0, "xx", .Valid⟩] ⟨0, "xx", .Valid⟩ (by simp) rfl⟩

theorem lossyF_nil (f : Nat) : lossyF f [] = [] := by
  cases f <;> rfl

set_option maxHeartbeats 1000000 in
theorem lossyF_fuel_eq :
    ∀ (f1 f2 : Nat) (l : List Nat), l.length ≤ f1 → l.length ≤ f2 →
      lossyF f1 l = lossyF f2 l := by
  intro f1
  induction f1 with
  | zero =>
    intro f2 l h1 _
    have hl : l = [] := List.length_eq_zero.mp (Nat.le_zero.mp h1)
    subst hl
    rw [lossyF_nil, lossyF_nil]
  | succ f1 ih =>
    intro f2 l h1 h2
    rcases l with _ | ⟨b, _ | ⟨b2, _ | ⟨b3, _ | ⟨b4, rest⟩⟩⟩⟩
    · rw [lossyF_nil, lossyF_nil]
    all_goals
      rcases f2 with _ | f2
    case succ.cons.nil.zero => simp at h2
    case succ.cons.cons.nil.zero => simp at h2
    case succ.cons.cons.cons.nil.zero => simp at h2
    case succ.cons.cons.cons.cons.zero => simp at h2
    all_goals
      simp only [List.length_cons, List.length_nil] at h1 h2
    all_goals
      simp only [lossyF, lossyF_nil]
    all_goals
      split_ifs
    all_goals try rfl
    all_goals
      refine congrArg (List.cons _) (ih _ _ ?_ ?_) <;>
        ((try simp only [List.length_cons, List.length_nil]); omega)

theorem lossy_eq_lossyF (f : Nat) (l : List Nat) (h : l.length ≤ f) :
    lossy l = lossyF f l :=
  lossyF_fuel_eq l.length f l le_rfl h

theorem one_le_charLenUtf16 (c : Char) : 1 ≤ charLenUtf16 c := by
  unfold charLenUtf16
  split_ifs <;> omega

theorem utf16Len_nil : utf16Len [] = 0 := rfl

theorem utf16Len_cons (c : Char) (cs : List Char) :
    utf16Len (c :: cs) = charLenUtf16 c + utf16Len cs := by
  simp [utf16Len]

set_option maxHeartbeats 1000000 in
theorem one_le_utf16Len_lossyF_cons (f : Nat) (b : Nat) (l : List Nat) :
    1 ≤ utf16Len (lossyF (f + 1) (b :: l)) := by
  rcases l with _ | ⟨b2, _ | ⟨b3, _ | ⟨b4, rest⟩⟩⟩ <;>
    simp only [lossyF, lossyF_nil] <;>
    split_ifs <;>
    (rw [utf16Len_cons]
     exact le_trans (one_le_charLenUtf16 _) (Nat.le_add_right _ _))

set_option maxHeartbeats 2000000 in
set_option maxRecDepth 8192 in
theorem utf16Len_lossyF_append :
    ∀ (f : Nat) (u w : List Nat), (u ++ w).length ≤ f →
      utf16Len (lossyF f u) ≤ utf16Len (lossyF f (u ++ w)) := by
  intro f
  induction f with
  | zero =>
    intro u w h
    have hn : u ++ w = [] := List.length_eq_zero.mp (Nat.le_zero.mp h)
    have hu : u = [] := (List.append_eq_nil.mp hn).1
    rw [hn, hu]
  | succ f ih =>
    intro u w h
    rcases u with _ | ⟨b, rest⟩
    · simp only [List.nil_append, lossyF_nil, utf16Len_nil]
      exact Nat.zero_le _
    simp only [List.cons_append, List.length_cons, List.length_append] at h ⊢
    rcases rest with _ | ⟨b2, _ | ⟨b3, _ | ⟨b4, rest4⟩⟩⟩
    all_goals
      simp only [lossyF, lossyF_nil, List.cons_append, List.nil_append]
    all_goals
      split_ifs
    all_goals
      try (rw [utf16Len_cons, utf16Len_cons]
           exact Nat.add_le_add_left (Nat.zero_le _) _)
    all_goals
      try (rw [utf16Len_cons, utf16Len_cons]
           refine Nat.add_le_add_left (ih _ _ ?_) _
           simp only [List.length_cons, List.length_nil, List.length_append] at h ⊢
           omega)
    all_goals
      show utf16Len [replChar] ≤ _
    all_goals (
      rcases w with _ | ⟨c0, w0⟩
      · exact Nat.le_refl _
      · dsimp only
        split_ifs <;>
          first
            | (rw [utf16Len_cons]
               exact le_trans (one_le_charLenUtf16 _) (Nat.le_add_right _ _))
            | (rcases w0 with _ | ⟨c1, w1⟩
               · exact Nat.le_refl _
               · dsimp only
                 split_ifs <;>
                   first
                     | (rw [utf16Len_cons]
                        exact le_trans (one_le_charLenUtf16 _) (Nat.le_add_right _ _))
                     | (rcases w1 with _ | ⟨c2, w2⟩
                        · exact Nat.le_refl _
                        · dsimp only
                          split_ifs <;>
                            (rw [utf16Len_cons]
                             exact le_trans (one_le_charLenUtf16 _) (Nat.le_add_right _ _)))))

theorem utf16Len_lossy_append (u w : List Nat) :
    utf16Len (lossy u) ≤ utf16Len (lossy (u ++ w)) := by
  rw [lossy_eq_lossyF (u ++ w).length u (by simp), lossy]
  exact utf16Len_lossyF_append _ u w le_rfl

theorem rfindNl_append (u v : List Nat) :
    rfindNl (u ++ v) = match rfindNl v with
      | some i => some (u.length + i)
      | none => rfindNl u := by
  induction u with
  | nil =>
    cases h : rfindNl v <;> simp [h, rfindNl]
  | cons a u ih =>
    simp only [List.cons_append, rfindNl, List.append_eq]
    rw [ih]
    cases h : rfindNl v <;> cases h2 : rfindNl u <;>
      simp [h, h2, List.length_cons] <;> omega

theorem rfindNl_eq_none (l : List Nat) : rfindNl l = none ↔ ∀ x ∈ l, x ≠ 10 := by
  induction l with
  | nil => simp [rfindNl]
  | cons a l ih =>
    simp only [rfindNl]
    cases h : rfindNl l with
    | some i =>
      constructor
      · intro hc
        cases hc
      · intro hall
        exact absurd (ih.mpr fun x hx => hall x (List.mem_cons_of_mem a hx))
          (by rw [h]; simp)
    | none =>
      by_cases ha : a = 10
      · subst ha
        simp
      · rw [if_neg ha]
        simp only [List.forall_mem_cons, true_iff]
        exact ⟨ha, ih.mp h⟩

theorem rfindNl_some_lt (l : List Nat) (i : Nat) (h : rfindNl l = some i) : i < l.length := by
  induction l generalizing i with
  | nil => cases h
  | cons a l ih =>
    simp only [rfindNl] at h
    cases h2 : rfindNl l with
    | some j =>
      rw [h2] at h
      simp only [Option.some.injEq] at h
      have := ih j h2
      simp only [List.length_cons]
      omega
    | none =>
      rw [h2] at h
      split_ifs at h with ha
      simp only [Option.some.injEq] at h
      simp only [List.length_cons]
      omega

theorem lineStart_le (b : List Nat) (off : Nat) (h : off ≤ b.length) :
    lineStart b off ≤ off := by
  unfold lineStart
  cases hr : rfindNl (b.take off) with
  | none => exact Nat.zero_le _
  | some s =>
    have hlt := rfindNl_some_lt _ s hr
    simp only [List.length_take] at hlt
    dsimp only
    omega

theorem take_split (b : List Nat) (o1 o2 : Nat) (h12 : o1 ≤ o2) :
    b.take o2 = b.take o1 ++ (b.take o2).drop o1 := by
  conv_lhs => rw [← List.take_append_drop o1 (b.take o2)]
  rw [List.take_take, min_eq_left h12]

theorem lineStart_stable (b : List Nat) (o1 o2 : Nat) (h12 : o1 ≤ o2)
    (hnl : ∀ x ∈ (b.take o2).drop o1, x ≠ 10) :
    lineStart b o2 = lineStart b o1 := by
  unfold lineStart
  rw [take_split b o1 o2 h12, rfindNl_append, (rfindNl_eq_none _).mpr hnl]

theorem drop_take_extend (b : List Nat) (o1 o2 ls : Nat) (h12 : o1 ≤ o2)
    (hls : ls ≤ o1) (h1 : o1 ≤ b.length) :
    (b.take o2).drop ls = (b.take o1).drop ls ++ (b.take o2).drop o1 := by
  conv_lhs => rw [take_split b o1 o2 h12]
  rw [List.drop_append_eq_append_drop]
  have hlen : (b.take o1).length = o1 := by
    simp [List.length_take]
    omega
  rw [hlen, Nat.sub_eq_zero_of_le hls, List.drop_zero]

theorem pos_ok_elim {st : AccumulatePosition} {b : List Nat} {off : Nat}
    {p : Nat × Nat} {st' : AccumulatePosition}
    (h : st.pos b off = .ok (p, st')) :
    st.last_offset ≤ off ∧ off ≤ b.length ∧
    p.1 = st.line_num + ((b.take off).drop st.last_offset).count 10 ∧
    p.2 = utf16Len (lossy ((b.take off).drop (lineStart b off))) ∧
    st' = ⟨p.1, p.2, off⟩ := by
  unfold AccumulatePosition.pos at h
  split_ifs at h with h1 h2
  simp only [Except.ok.injEq, Prod.mk.injEq] at h
  obtain ⟨hp, hst⟩ := h
  refine ⟨by omega, by omega, ?_, ?_, ?_⟩
  · rw [← hp]
  · rw [← hp]
  · rw [← hst, ← hp]

theorem pos_ok_intro (st : AccumulatePosition) (b : List Nat) (off : Nat)
    (h1 : st.last_offset ≤ off) (h2 : off ≤ b.length) :
    st.pos b off = .ok
      ((st.line_num + ((b.take off).drop st.last_offset).count 10,
        utf16Len (lossy ((b.take off).drop (lineStart b off)))),
       ⟨st.line_num + ((b.take off).drop st.last_offset).count 10,
        utf16Len (lossy ((b.take off).drop (lineStart b off))), off⟩) := by
  unfold AccumulatePosition.pos
  rw [if_neg (by omega), if_neg (by omega)]

theorem pos_pair_lex {st st1 st2 : AccumulatePosition} {b : List Nat} {o1 o2 : Nat}
    {p1 p2 : Nat × Nat}
    (h1 : st.pos b o1 = .ok (p1, st1)) (h2 : st1.pos b o2 = .ok (p2, st2)) :
    lexLe p1 p2 := by
  obtain ⟨hle1, hlen1, hl1, hc1, hst1⟩ := pos_ok_elim h1
  obtain ⟨hle2, hlen2, hl2, hc2, hst2⟩ := pos_ok_elim h2
  subst hst1
  simp only at hle2 hl2
  by_cases hcnt : ((b.take o2).drop o1).count 10 = 0
  · right
    refine ⟨by omega, ?_⟩
    have hnl : ∀ x ∈ (b.take o2).drop o1, x ≠ 10 := by
      intro x hx hx10
      subst hx10
      exact absurd hcnt (by simp [List.count_eq_zero, hx])
    have hls : lineStart b o2 = lineStart b o1 := lineStart_stable b o1 o2 hle2 hnl
    rw [hc2, hls, hc1,
      drop_take_extend b o1 o2 (lineStart b o1) hle2 (lineStart_le b o1 hlen1) hlen1]
    exact utf16Len_lossy_append _ _
  · left
    omega

theorem runPos_lexChain :
    ∀ (offs : List Nat) (b : List Nat) (st : AccumulatePosition) (ps : List (Nat × Nat)),
      runPos b st offs = .ok ps → lexChain ps := by
  intro offs
  induction offs with
  | nil =>
    intro b st ps h
    simp only [runPos, Except.ok.injEq] at h
    rw [← h]
    trivial
  | cons o offs ih =>
    intro b st ps h
    simp only [runPos] at h
    rcases hpos : st.pos b o with e | v
    · rw [hpos] at h
      cases h
    · obtain ⟨p, st'⟩ := v
      rw [hpos] at h
      dsimp only at h
      rcases hrec : runPos b st' offs with e' | ps'
      · rw [hrec] at h
        cases h
      · rw [hrec] at h
        simp only [Except.map, Except.ok.injEq] at h
        subst h
        rcases offs with _ | ⟨o2, offs'⟩
        · simp only [runPos, Except.ok.injEq] at hrec
          rw [← hrec]
          trivial
        · simp only [runPos] at hrec
          rcases hpos2 : st'.pos b o2 with e2 | v2
          · rw [hpos2] at hrec
            cases hrec
          · obtain ⟨q, st''⟩ := v2
            rw [hpos2] at hrec
            dsimp only at hrec
            rcases hrec2 : runPos b st'' offs' with e3 | ps''
            · rw [hrec2] at hrec
              cases hrec
            · rw [hrec2] at hrec
              simp only [Except.map, Except.ok.injEq] at hrec
              have hchain : lexChain ps' := by
                refine ih b st' ps' ?_
                simp only [runPos, hpos2, hrec2, Except.map]
                rw [hrec]
              rw [← hrec] at hchain ⊢
              exact ⟨pos_pair_lex hpos hpos2, hchain⟩

/-- C4: feeding any non-decreasing sequence of byte offsets to one position
cursor yields a lexicographically non-decreasing sequence of (line, column)
pairs. -/
theorem C4_translator_monotone (b : List Nat) (offs : List Nat) (ps : List (Nat × Nat))
    (hmono : offsetsMonotone offs = true)
    (h : runPos b AccumulatePosition.new offs = .ok ps) : lexChain ps :=
  runPos_lexChain offs b AccumulatePosition.new ps h

theorem C4_witness :
    offsetsMonotone [0, 1, 3, 4] = true ∧
    runPos (strBytes "ab\ncd") AccumulatePosition.new [0, 1, 3, 4] =
      .ok [(0, 0), (0, 1), (1, 0), (1, 1)] ∧
    lexChain [(0, 0), (0, 1), (1, 0), (1, 1)] :=
  ⟨by decide, by decide,
   C4_translator_monotone (strBytes "ab\ncd") [0, 1, 3, 4] _ (by decide) (by decide)⟩

theorem lineStart_eq_spec (b : List Nat) :
    ∀ off, off ≤ b.length → lineStart b off = lineStartSpec b off := by
  intro off
  induction off with
  | zero =>
    intro _
    rfl
  | succ off ih =>
    intro h
    have hoff : off < b.length := by omega
    have htake : b.take (off + 1) = b.take off ++ [b[off]] := by
      rw [List.take_succ, List.getElem?_eq_getElem hoff]
      rfl
    unfold lineStart lineStartSpec
    rw [htake, rfindNl_append]
    by_cases h10 : b[off] = 10
    · simp only [rfindNl, h10, if_pos rfl]
      have hlen : (b.take off).length = off := by
        simp [List.length_take]
        omega
      simp [List.getElem?_eq_getElem hoff, h10, hlen]
    · simp only [rfindNl, if_neg h10]
      rw [List.getElem?_eq_getElem hoff]
      have hbeq : ((some b[off] : Option Nat) == some 10) = false := by
        simp [h10]
      rw [hbeq]
      simp only [Bool.false_eq_true, if_false]
      exact ih (by omega)

/-- C3: the column returned by the position translator is the sum of UTF-16
code-unit widths (1 for code points up to `0xFFFF`, 2 otherwise — `utf16Len`)
of the decoded characters (`lossy`) from the start of the current line (the
byte after the most recent newline before the offset, or offset 0 —
`lineStartSpec`) up to the given byte offset. -/
theorem C3_column_is_utf16_from_line_start (st st' : AccumulatePosition)
    (b : List Nat) (off : Nat) (p : Nat × Nat)
    (h : st.pos b off = .ok (p, st')) :
    p.2 = utf16Len (lossy ((b.take off).drop (lineStartSpec b off))) := by
  obtain ⟨_, hlen, _, hc, _⟩ := pos_ok_elim h
  rw [hc, lineStart_eq_spec b off hlen]

theorem C3_witness :
    AccumulatePosition.new.pos demoBytes 12 = .ok ((0, 9), ⟨0, 9, 12⟩) ∧
    (9 : Nat) = utf16Len (lossy ((demoBytes.take 12).drop (lineStartSpec demoBytes 12))) ∧
    charLenUtf16 'é' = 1 ∧ charLenUtf16 '😀' = 2 :=
  ⟨by decide,
   C3_column_is_utf16_from_line_start AccumulatePosition.new ⟨0, 9, 12⟩ demoBytes 12
     (0, 9) (by decide),
   by decide, by decide⟩

theorem pos_assert_fires (st : AccumulatePosition) (b : List Nat) (off : Nat)
    (h : off < st.last_offset) : st.pos b off = .error .assertFailed := by
  unfold AccumulatePosition.pos
  rw [if_pos h]

theorem pos_no_assert (st : AccumulatePosition) (b : List Nat) (off : Nat)
    (h : st.last_offset ≤ off) : st.pos b off ≠ .error .assertFailed := by
  unfold AccumulatePosition.pos
  rw [if_neg (by omega)]
  split_ifs <;> simp

theorem offsetsMonotone_cons (a : Nat) (t : List Nat)
    (h : offsetsMonotone (a :: t) = true) :
    offsetsMonotone t = true ∧ ∀ o, t.head? = some o → a ≤ o := by
  cases t with
  | nil => exact ⟨rfl, by simp⟩
  | cons b t' =>
    simp only [offsetsMonotone, Bool.and_eq_true, decide_eq_true_eq] at h
    refine ⟨?_, ?_⟩
    · exact (by simpa [offsetsMonotone] using h.2)
    · intro o ho
      simp only [List.head?_cons, Option.some.injEq] at ho
      omega

theorem runPos_no_assert :
    ∀ (offs : List Nat) (b : List Nat) (st : AccumulatePosition),
      offsetsMonotone offs = true →
      (∀ o, offs.head? = some o → st.last_offset ≤ o) →
      runPos b st offs ≠ .error .assertFailed := by
  intro offs
  induction offs with
  | nil =>
    intro b st _ _
    simp [runPos]
  | cons o offs ih =>
    intro b st hmono hhead
    have hle : st.last_offset ≤ o := hhead o rfl
    obtain ⟨hmono', hstep⟩ := offsetsMonotone_cons o offs hmono
    simp only [runPos]
    rcases hpos : st.pos b o with e | v
    · dsimp only
      intro hc
      injection hc with h'
      rw [h'] at hpos
      exact pos_no_assert st b o hle hpos
    · obtain ⟨p, st'⟩ := v
      dsimp only
      obtain ⟨_, _, _, _, hst'⟩ := pos_ok_elim hpos
      rcases hrec : runPos b st' offs with e' | ps'
      · have hne : e' ≠ .assertFailed := by
          intro hc
          subst hc
          exact ih b st' hmono' (fun o2 ho2 => by rw [hst']; exact hstep o2 ho2) hrec
        simp only [hrec, Except.map]
        intro hc
        cases hc
        exact hne rfl
      · simp [hrec, Except.map]

theorem runPos_total :
    ∀ (offs : List Nat) (b : List Nat) (st : AccumulatePosition),
      offsetsMonotone offs = true →
      (∀ o ∈ offs, o ≤ b.length) →
      (∀ o, offs.head? = some o → st.last_offset ≤ o) →
      (runPos b st offs).isOk = true := by
  intro offs
  induction offs with
  | nil =>
    intro b st _ _ _
    simp [runPos, Except.isOk, Except.toBool]
  | cons o offs ih =>
    intro b st hmono hlen hhead
    have hle : st.last_offset ≤ o := hhead o rfl
    obtain ⟨hmono', hstep⟩ := offsetsMonotone_cons o offs hmono
    simp only [runPos]
    rcases hpos : st.pos b o with e | v
    · have hok := pos_ok_intro st b o hle (hlen o (List.mem_cons_self o offs))
      rw [hpos] at hok
      cases hok
    · obtain ⟨p, st'⟩ := v
      dsimp only
      obtain ⟨_, _, _, _, hst'⟩ := pos_ok_elim hpos
      have hih := ih b st' hmono'
        (fun o2 ho2 => hlen o2 (List.mem_cons_of_mem o ho2))
        (fun o2 ho2 => by rw [hst']; exact hstep o2 ho2)
      rcases hrec : runPos b st' offs with e' | ps'
      · rw [hrec] at hih
        simp [Except.isOk, Except.toBool] at hih
      · simp [Except.map, Except.isOk, Except.toBool]

/-- C5 (amended): a call with a byte offset strictly smaller than the previous
call's offset fails the assertion; under offsets that are non-decreasing the
assertion never fires, and when additionally every offset is at most the
buffer's byte length the translation is total. (As stated, the claim's
totality also needs the offsets to stay within the buffer: an offset past the
end panics on the slice even though it is monotone — see the counterexample.) -/
theorem C5_assert_monotone_contract :
    (∀ (st : AccumulatePosition) (b : List Nat) (off : Nat),
       off < st.last_offset → st.pos b off = .error .assertFailed) ∧
    (∀ (b : List Nat) (offs : List Nat), offsetsMonotone offs = true →
       runPos b AccumulatePosition.new offs ≠ .error .assertFailed) ∧
    (∀ (b : List Nat) (offs : List Nat), offsetsMonotone offs = true →
       (∀ o ∈ offs, o ≤ b.length) →
       (runPos b AccumulatePosition.new offs).isOk = true) :=
  ⟨pos_assert_fires,
   fun b offs hmono =>
     runPos_no_assert offs b AccumulatePosition.new hmono (fun _ _ => Nat.zero_le _),
   fun b offs hmono hlen =>
     runPos_total offs b AccumulatePosition.new hmono hlen (fun _ _ => Nat.zero_le _)⟩

theorem C5_witness :
    AccumulatePosition.pos ⟨0, 0, 5⟩ [] 3 = .error .assertFailed ∧
    offsetsMonotone [0, 1, 2] = true ∧
    runPos [97, 98] AccumulatePosition.new [0, 1, 2] ≠ .error .assertFailed ∧
    (runPos [97, 98] AccumulatePosition.new [0, 1, 2]).isOk = true :=
  ⟨C5_assert_monotone_contract.1 ⟨0, 0, 5⟩ [] 3 (by decide), by decide,
   C5_assert_monotone_contract.2.1 [97, 98] [0, 1, 2] (by decide),
   C5_assert_monotone_contract.2.2 [97, 98] [0, 1, 2] (by decide) (by decide)⟩

theorem C5_counterexample :
    offsetsMonotone [1] = true ∧
    runPos [] AccumulatePosition.new [1] = .error .sliceOutOfRange :=
  ⟨by decide, by decide⟩

theorem update_router_go_fail (toFilePath : String → Option String)
    (tryNewCli : String → Option String → Option TyposCli) (config : Option String) :
    ∀ (folders : List WorkspaceFolder) (acc r : RouterTable),
      update_router_go toFilePath tryNewCli config acc folders = (r, false) →
      ∃ fs1 f fs2, folders = fs1 ++ f :: fs2 ∧
        update_router_go toFilePath tryNewCli config acc fs1 = (r, true) ∧
        folder_step toFilePath tryNewCli config r f = none := by
  intro folders
  induction folders with
  | nil =>
    intro acc r h
    simp [update_router_go] at h
  | cons f0 fs ih =>
    intro acc r h
    simp only [update_router_go] at h
    cases hstep : folder_step toFilePath tryNewCli config acc f0 with
    | none =>
      rw [hstep] at h
      injection h with h1 _
      subst h1
      exact ⟨[], f0, fs, rfl, by simp [update_router_go], hstep⟩
    | some r' =>
      rw [hstep] at h
      obtain ⟨fs1, f, fs2, hsplit, hgo, hfail⟩ := ih r' r h
      refine ⟨f0 :: fs1, f, fs2, by rw [hsplit]; rfl, ?_, hfail⟩
      simp only [update_router_go, hstep]
      exact hgo

/-- C1 (amended): when a rebuild fails, the rebuild aborts as a whole — folders
after the failure point contribute no routes and the catch-all is absent — but
the previously installed router does *not* remain: the state's router is the
partially rebuilt table holding exactly the routes of the folders processed
successfully before the failing step (the failing folder, or the catch-all
insertion), while the session options and folder list are untouched. On success
the router is the full per-folder table plus the catch-all. -/
theorem C1_rebuild_characterisation (toFilePath : String → Option String)
    (tryNewCli : String → Option String → Option TyposCli)
    (s s' : BackendState) (ok : Bool)
    (h : update_router toFilePath tryNewCli s = (s', ok)) :
    s'.severity = s.severity ∧ s'.config = s.config ∧
    s'.workspace_folders = s.workspace_folders ∧
    (ok = true →
       ∃ r, update_router_go toFilePath tryNewCli s.config [] s.workspace_folders =
              (r, true) ∧
            insert_catch_all tryNewCli s.config r = some s'.router) ∧
    (ok = false →
       (∃ fs1 f fs2, s.workspace_folders = fs1 ++ f :: fs2 ∧
          update_router_go toFilePath tryNewCli s.config [] fs1 = (s'.router, true) ∧
          folder_step toFilePath tryNewCli s.config s'.router f = none) ∨
       (update_router_go toFilePath tryNewCli s.config [] s.workspace_folders =
          (s'.router, true) ∧
        insert_catch_all tryNewCli s.config s'.router = none)) := by
  unfold update_router at h
  rcases hgo : update_router_go toFilePath tryNewCli s.config [] s.workspace_folders
    with ⟨r, okg⟩
  rw [hgo] at h
  cases okg with
  | false =>
    dsimp only at h
    injection h with h1 h2
    subst h1
    refine ⟨rfl, rfl, rfl, ?_, ?_⟩
    · intro hc
      rw [← h2] at hc
      cases hc
    · intro _
      exact Or.inl (update_router_go_fail toFilePath tryNewCli s.config
        s.workspace_folders [] r hgo)
  | true =>
    dsimp only at h
    cases hca : insert_catch_all tryNewCli s.config r with
    | none =>
      rw [hca] at h
      injection h with h1 h2
      subst h1
      refine ⟨rfl, rfl, rfl, ?_, ?_⟩
      · intro hc
        rw [← h2] at hc
        cases hc
      · intro _
        exact Or.inr ⟨rfl, hca⟩
    | some r' =>
      rw [hca] at h
      injection h with h1 h2
      subst h1
      refine ⟨rfl, rfl, rfl, ?_, ?_⟩
      · intro _
        exact ⟨r, rfl, hca⟩
      · intro hc
        rw [← h2] at hc
        cases hc

theorem C1_witness :
    update_router cexToFilePath cexTryNewCli cexState2 = (cexResult, false) ∧
    cexResult.severity = cexState2.severity ∧
    cexResult.config = cexState2.config ∧
    cexResult.workspace_folders = cexState2.workspace_folders :=
  ⟨by decide,
   (C1_rebuild_characterisation cexToFilePath cexTryNewCli cexState2 cexResult false
     (by decide)).1,
   (C1_rebuild_characterisation cexToFilePath cexTryNewCli cexState2 cexResult false
     (by decide)).2.1,
   (C1_rebuild_characterisation cexToFilePath cexTryNewCli cexState2 cexResult false
     (by decide)).2.2.1⟩

/-- C1 counterexample: a workspace-folder change whose rebuild fails on the
second folder leaves the router holding only the first folder's route — the
previously installed router (`/old` route plus catch-all) is gone, the state is
not unchanged, and the surviving table is a strict prefix of what the completed
rebuild would have installed (second instance: failing only at the catch-all
leaves every per-folder route but no catch-all). -/
theorem C1_counterexample :
    (update_workspace_folders cexToFilePath cexTryNewCli
       [⟨"/a", "a"⟩, ⟨"/b", "b"⟩] [⟨"/old", "old"⟩] cexState).2 = false ∧
    (update_workspace_folders cexToFilePath cexTryNewCli
       [⟨"/a", "a"⟩, ⟨"/b", "b"⟩] [⟨"/old", "old"⟩] cexState).1.router =
      [("/a/*p", ⟨1⟩)] ∧
    cexState.router = [("/old/*p", ⟨0⟩), ("/*p", ⟨9⟩)] ∧
    [("/a/*p", (⟨1⟩ : TyposCli))] ≠ [("/old/*p", (⟨0⟩ : TyposCli)), ("/*p", ⟨9⟩)] ∧
    (update_workspace_folders cexToFilePath cexTryNewCli2
       [⟨"/a", "a"⟩, ⟨"/b", "b"⟩] [⟨"/old", "old"⟩] cexState).2 = false ∧
    (update_workspace_folders cexToFilePath cexTryNewCli2
       [⟨"/a", "a"⟩, ⟨"/b", "b"⟩] [⟨"/old", "old"⟩] cexState).1.router =
      [("/a/*p", ⟨2⟩), ("/b/*p", ⟨2⟩)] :=
  ⟨by decide, by decide, rfl, by decide, by decide, by decide⟩
